import Mathlib

/-!
Shallow embedding of `src/scripts/replace_resolution_pipeline_methods.py`.

The script compiles, for each request, the Python regex

  `/\*\*.*?\*/\s+` + re.escape(visibility) + `\s+function\s+` + re.escape(func_name) + `\s*\(`

with the DOTALL flag, and performs `pattern.subn(replacement, text, count=1)`,
where `replacement = new_block + "\n    " + visibility + " function " + func_name + "("`.
On a zero count it raises SystemExit with a message naming func_name;
after the six calls it writes the buffer back to the file.

Texts are embedded as `List Char`.  The matcher below implements exactly the
backtracking semantics of that one fixed regex shape: literals are matched
verbatim (the effect of `re.escape`), `.*?` is lazy (shortest first, DOTALL so
any character qualifies), `\s+` and `\s*` are greedy (longest first), and the
overall search is leftmost (first start position at which the whole pattern
can match).  Each combinator takes an explicit continuation so that the
backtracking priority order of the Python engine is reproduced faithfully.

`isWS` covers the ASCII characters matched by Python `\s`; Python additionally
accepts some non-ASCII Unicode whitespace, which neither the target file nor
any claim exercises.

Python processes backslash escapes in the replacement template; none of the
six configured replacement blocks contains a backslash, so for this script the
template is inserted literally, as modelled here.
-/

namespace DocblockRewriter

/-- ASCII whitespace, as matched by Python regex `\s` on ASCII input. -/
def isWS (c : Char) : Bool :=
  c = ' ' || c = '\t' || c = '\n' || c = '\r' || c = '\x0b' || c = '\x0c'

/-- Match a literal string (the effect of `re.escape`): if `p` is a prefix of
`s`, return the remainder of `s`, else fail. -/
def stripLit : List Char → List Char → Option (List Char)
  | [], s => some s
  | _ :: _, [] => none
  | p :: ps, c :: cs => if p = c then stripLit ps cs else none

/-- Lazy `.*?` under DOTALL, followed by the continuation `k`: try the
continuation after consuming 0 characters, then 1, then 2, ... (shortest
first), failing only when every expansion fails. -/
def lazyThen (k : List Char → Option (List Char)) : List Char → Option (List Char)
  | [] => k []
  | c :: rest =>
    match k (c :: rest) with
    | some r => some r
    | none => lazyThen k rest

/-- Greedy `\s*` followed by the continuation `k`: consume as many whitespace
characters as possible first, backing off one at a time when the continuation
fails (longest first). -/
def wsStarThen (k : List Char → Option (List Char)) : List Char → Option (List Char)
  | [] => k []
  | c :: rest =>
    if isWS c then
      match wsStarThen k rest with
      | some r => some r
      | none => k (c :: rest)
    else k (c :: rest)

/-- Greedy `\s+` followed by the continuation `k`: at least one whitespace
character, then as in `wsStarThen`. -/
def wsPlusThen (k : List Char → Option (List Char)) : List Char → Option (List Char)
  | [] => none
  | c :: rest => if isWS c then wsStarThen k rest else none

/-- The literal `/**` opening the docblock part of the pattern. -/
def openC : List Char := "/**".data

/-- The literal `*/` closing a comment. -/
def closeC : List Char := "*/".data

/-- The literal keyword `function` from the pattern. -/
def fnKw : List Char := "function".data

/-- The literal `(` ending the pattern. -/
def parenC : List Char := "(".data

/-- The part of the pattern after the whitespace that follows `*/`:
`visibility` then `\s+function\s+` then the function name then `\s*(`,
anchored at the start of the input. -/
def findHeaderAt (vis name : List Char) (s : List Char) : Option (List Char) :=
  (stripLit vis s).bind
    (wsPlusThen fun s2 =>
      (stripLit fnKw s2).bind
        (wsPlusThen fun s3 =>
          (stripLit name s3).bind (wsStarThen (stripLit parenC))))

/-- The part of the pattern after `*/`: `\s+` then the declaration header. -/
def matchTail (vis name : List Char) : List Char → Option (List Char) :=
  wsPlusThen (findHeaderAt vis name)

/-- One expansion step of the lazy quantifier: the literal `*/` followed by the
tail of the pattern. -/
def closeThenTail (vis name : List Char) (s : List Char) : Option (List Char) :=
  (stripLit closeC s).bind (matchTail vis name)

/-- The whole pattern, anchored at the start of `s`: returns the remainder of
`s` after the match when the pattern matches here. -/
def matchPatternAt (vis name : List Char) (s : List Char) : Option (List Char) :=
  (stripLit openC s).bind (lazyThen (closeThenTail vis name))

/-- Leftmost search, as performed by `pattern.subn`: scan start positions left
to right and return `(before, matched span, after)` for the first position at
which the pattern matches. -/
def findMatch (vis name : List Char) : List Char → Option (List Char × List Char × List Char)
  | [] => none
  | c :: cs =>
    match matchPatternAt vis name (c :: cs) with
    | some rest => some ([], (c :: cs).take ((c :: cs).length - rest.length), rest)
    | none =>
      match findMatch vis name cs with
      | some (pre, m, post) => some (c :: pre, m, post)
      | none => none

/-- The replacement template of line 19 of the script:
`new_block + "\n    " + visibility + " function " + func_name + "("`. -/
def replacementText (nb vis name : List Char) : List Char :=
  nb ++ "\n    ".data ++ vis ++ " function ".data ++ name ++ parenC

/-- `pattern.subn(replacement, text, count=1)`: replace the leftmost match, if
any, and report how many replacements were made (0 or 1). -/
def subn1 (name nb vis text : List Char) : List Char × Nat :=
  match findMatch vis name text with
  | some (pre, _, post) => (pre ++ replacementText nb vis name ++ post, 1)
  | none => (text, 0)

/-- The SystemExit message, naming the function that was not found. -/
def errMsg (name : List Char) : List Char :=
  "Docblock for ".data ++ name ++ " not found.".data

/-- `replace_docblock`: substitute once; when the count is zero, abort with the
error message (the `raise SystemExit` of line 22). -/
def replace_docblock (name nb vis text : List Char) : Except (List Char) (List Char) :=
  match subn1 name nb vis text with
  | (t, c) => if c = 0 then Except.error (errMsg name) else Except.ok t

/-- One replacement request: the arguments of one `replace_docblock` call. -/
structure Request where
  func_name : List Char
  new_block : List Char
  visibility : List Char

/-- The sequence of `replace_docblock` calls, threading the global `text`
buffer through them; the first failing call aborts the whole run. -/
def run : List Request → List Char → Except (List Char) (List Char)
  | [], t => Except.ok t
  | r :: rs, t =>
    match replace_docblock r.func_name r.new_block r.visibility t with
    | Except.ok t2 => run rs t2
    | Except.error e => Except.error e

/-- The request of the first `replace_docblock` call of the script. -/
def reqConstruct : Request :=
  ⟨"__construct".data,
   "    /**\n     * Initialize the default resolution pipeline.\n     *\n     * @see docs/classes/Resolve/ResolutionPipeline.html#__construct\n     */".data,
   "public".data⟩

/-- The request of the second call. -/
def reqSend : Request :=
  ⟨"send".data,
   "    /**\n     * Set the resolution context to be processed.\n     *\n     * @see docs/classes/Resolve/ResolutionPipeline.html#send\n     */".data,
   "public".data⟩

/-- The request of the third call. -/
def reqThrough : Request :=
  ⟨"through".data,
   "    /**\n     * Configure the pipe execution order.\n     *\n     * @see docs/classes/Resolve/ResolutionPipeline.html#through\n     */".data,
   "public".data⟩

/-- The request of the fourth call. -/
def reqThenReturn : Request :=
  ⟨"thenReturn".data,
   "    /**\n     * Execute the configured pipeline and return the result.\n     *\n     * @see docs/classes/Resolve/ResolutionPipeline.html#thenReturn\n     */".data,
   "public".data⟩

/-- The request of the fifth call (explicit `visibility="private"`). -/
def reqCarry : Request :=
  ⟨"carry".data,
   "    /**\n     * Build the pipeline execution chain.\n     *\n     * @see docs/classes/Resolve/ResolutionPipeline.html#carry\n     */".data,
   "private".data⟩

/-- The request of the sixth call (explicit `visibility="private"`). -/
def reqGetPipeInstance : Request :=
  ⟨"getPipeInstance".data,
   "    /**\n     * Resolve a pipe class name to its instance.\n     *\n     * @see docs/classes/Resolve/ResolutionPipeline.html#getPipeInstance\n     */".data,
   "private".data⟩

/-- The six requests, in the order the script issues them. -/
def requests : List Request :=
  [reqConstruct, reqSend, reqThrough, reqThenReturn, reqCarry, reqGetPipeInstance]

/-- Observable outcome of one script execution: the process exit code and the
contents written to the target file, if the write is reached. -/
structure Outcome where
  exitCode : Nat
  written : Option (List Char)
  deriving DecidableEq

/-- The whole script on an initial buffer: on success the final buffer is
written back (line 81) and the process exits 0; a `SystemExit` raised inside
any `replace_docblock` call terminates the process with exit status 1 before
the write is reached. -/
def runScript (text : List Char) : Outcome :=
  match run requests text with
  | Except.ok t => ⟨0, some t⟩
  | Except.error _ => ⟨1, none⟩

/-! ### Basic properties of the matcher combinators -/

lemma stripLit_eq : ∀ {p s r : List Char}, stripLit p s = some r → s = p ++ r := by
  intro p
  induction p with
  | nil => intro s r h; simp [stripLit] at h; simp [h]
  | cons p ps ih =>
    intro s r h
    cases s with
    | nil => simp [stripLit] at h
    | cons c cs =>
      simp only [stripLit] at h
      by_cases hc : p = c
      · rw [if_pos hc] at h
        have h2 := ih h
        subst hc
        simp [h2]
      · rw [if_neg hc] at h
        exact absurd h (by simp)

lemma stripLit_self : ∀ (p r : List Char), stripLit p (p ++ r) = some r := by
  intro p
  induction p with
  | nil => intro r; simp [stripLit]
  | cons p ps ih => intro r; simp [stripLit, ih]

lemma lazyThen_some {k : List Char → Option (List Char)} :
    ∀ {s r : List Char}, lazyThen k s = some r →
      ∃ n, n ≤ s.length ∧ k (s.drop n) = some r ∧ ∀ i, i < n → k (s.drop i) = none := by
  intro s
  induction s with
  | nil =>
    intro r h
    exact ⟨0, Nat.le_refl 0, by simpa [lazyThen] using h, by intro i hi; omega⟩
  | cons c cs ih =>
    intro r h
    simp only [lazyThen] at h
    cases hk : k (c :: cs) with
    | some r2 =>
      rw [hk] at h
      refine ⟨0, by simp, ?_, by intro i hi; omega⟩
      simpa [hk] using h
    | none =>
      rw [hk] at h
      obtain ⟨n, hn, hkn, hlt⟩ := ih h
      refine ⟨n + 1, by simpa using Nat.succ_le_succ hn, by simpa using hkn, ?_⟩
      intro i hi
      cases i with
      | zero => simpa using hk
      | succ j => simpa using hlt j (Nat.lt_of_succ_lt_succ hi)

lemma wsStarThen_some {k : List Char → Option (List Char)} :
    ∀ {s r : List Char}, wsStarThen k s = some r → ∃ n, k (s.drop n) = some r := by
  intro s
  induction s with
  | nil => intro r h; exact ⟨0, by simpa [wsStarThen] using h⟩
  | cons c cs ih =>
    intro r h
    simp only [wsStarThen] at h
    by_cases hw : isWS c = true
    · rw [if_pos hw] at h
      cases hs : wsStarThen k cs with
      | some r2 =>
        rw [hs] at h
        obtain ⟨n, hn⟩ := ih hs
        exact ⟨n + 1, by simpa using hn.trans (by simpa using h)⟩
      | none =>
        rw [hs] at h
        exact ⟨0, by simpa using h⟩
    · rw [if_neg hw] at h
      exact ⟨0, by simpa using h⟩

lemma wsPlusThen_some {k : List Char → Option (List Char)} {s r : List Char}
    (h : wsPlusThen k s = some r) : ∃ n, k (s.drop n) = some r := by
  cases s with
  | nil => simp [wsPlusThen] at h
  | cons c cs =>
    simp only [wsPlusThen] at h
    by_cases hw : isWS c = true
    · rw [if_pos hw] at h
      obtain ⟨n, hn⟩ := wsStarThen_some h
      exact ⟨n + 1, by simpa using hn⟩
    · rw [if_neg hw] at h
      exact absurd h (by simp)

lemma wsStarThen_ne {k : List Char → Option (List Char)} :
    ∀ {w t : List Char}, (∀ c ∈ w, isWS c = true) → k t ≠ none →
      wsStarThen k (w ++ t) ≠ none := by
  intro w
  induction w with
  | nil =>
    intro t _ hk
    cases t with
    | nil => simpa [wsStarThen] using hk
    | cons c cs =>
      simp only [List.nil_append, wsStarThen]
      by_cases hw : isWS c = true
      · rw [if_pos hw]
        cases hs : wsStarThen k cs with
        | some r2 => simp
        | none => simpa using hk
      · rw [if_neg hw]
        simpa using hk
  | cons c w2 ih =>
    intro t hw hk
    have hc : isWS c = true := hw c (by simp)
    simp only [List.cons_append, wsStarThen, if_pos hc]
    cases hs : wsStarThen k (w2 ++ t) with
    | some r2 => simp
    | none =>
      exact absurd hs (ih (by intro d hd; exact hw d (by simp [hd])) hk)

lemma lazyThen_ne {k : List Char → Option (List Char)} :
    ∀ (a : List Char) {t : List Char}, k t ≠ none → lazyThen k (a ++ t) ≠ none := by
  intro a
  induction a with
  | nil =>
    intro t hk
    cases t with
    | nil => simpa [lazyThen] using hk
    | cons c cs =>
      simp only [List.nil_append, lazyThen]
      cases hkc : k (c :: cs) with
      | some r => simp
      | none => exact absurd hkc hk
  | cons c a2 ih =>
    intro t hk
    simp only [List.cons_append, lazyThen]
    cases hkc : k (c :: (a2 ++ t)) with
    | some r => simp
    | none => exact ih hk

/-! ### Dissecting a successful match -/

lemma findHeaderAt_parts {vis name u r : List Char} (h : findHeaderAt vis name u = some r) :
    r <:+ u ∧ ∃ x y, u = x ++ name ++ y := by
  simp only [findHeaderAt, Option.bind_eq_some] at h
  obtain ⟨u2, h1, h2⟩ := h
  have e1 : u = vis ++ u2 := stripLit_eq h1
  obtain ⟨n1, h3⟩ := wsPlusThen_some h2
  simp only [Option.bind_eq_some] at h3
  obtain ⟨s3, h4, h5⟩ := h3
  have e2 : u2.drop n1 = fnKw ++ s3 := stripLit_eq h4
  obtain ⟨n2, h6⟩ := wsPlusThen_some h5
  simp only [Option.bind_eq_some] at h6
  obtain ⟨s4, h7, h8⟩ := h6
  have e3 : s3.drop n2 = name ++ s4 := stripLit_eq h7
  obtain ⟨n3, h9⟩ := wsStarThen_some h8
  have e4 : s4.drop n3 = parenC ++ r := stripLit_eq h9
  have s2u : u2 <:+ u := ⟨vis, e1.symm⟩
  have s3u : s3 <:+ u := by
    have : s3 <:+ u2.drop n1 := ⟨fnKw, e2.symm⟩
    exact (this.trans (List.drop_suffix n1 u2)).trans s2u
  have s4u : s4 <:+ u := by
    have : s4 <:+ s3.drop n2 := ⟨name, e3.symm⟩
    exact (this.trans (List.drop_suffix n2 s3)).trans s3u
  constructor
  · have : r <:+ s4.drop n3 := ⟨parenC, e4.symm⟩
    exact (this.trans (List.drop_suffix n3 s4)).trans s4u
  · have hdr : s3.drop n2 <:+ u := (List.drop_suffix n2 s3).trans s3u
    obtain ⟨x, hx⟩ := hdr
    exact ⟨x, s4, by rw [← hx, e3, List.append_assoc]⟩

lemma matchPatternAt_header {vis name s r : List Char}
    (h : matchPatternAt vis name s = some r) :
    ∃ u, u <:+ s ∧ findHeaderAt vis name u = some r := by
  simp only [matchPatternAt, Option.bind_eq_some] at h
  obtain ⟨u1, h1, h2⟩ := h
  have e1 : s = openC ++ u1 := stripLit_eq h1
  obtain ⟨n, _, h3, _⟩ := lazyThen_some h2
  simp only [closeThenTail, Option.bind_eq_some] at h3
  obtain ⟨u2, h4, h5⟩ := h3
  have e2 : u1.drop n = closeC ++ u2 := stripLit_eq h4
  simp only [matchTail] at h5
  obtain ⟨n2, h6⟩ := wsPlusThen_some h5
  refine ⟨u2.drop n2, ?_, h6⟩
  have su2 : u2 <:+ u1 := by
    have : u2 <:+ u1.drop n := ⟨closeC, e2.symm⟩
    exact this.trans (List.drop_suffix n u1)
  exact ((List.drop_suffix n2 u2).trans su2).trans ⟨openC, e1.symm⟩

lemma matchPatternAt_suffix {vis name s r : List Char}
    (h : matchPatternAt vis name s = some r) : r <:+ s := by
  obtain ⟨u, hu, hf⟩ := matchPatternAt_header h
  exact ((findHeaderAt_parts hf).1).trans hu

lemma matchPatternAt_nil (vis name : List Char) : matchPatternAt vis name [] = none := by
  simp [matchPatternAt, openC, stripLit]

lemma findMatch_decomp {vis name : List Char} :
    ∀ {text pre m post : List Char}, findMatch vis name text = some (pre, m, post) →
      text = pre ++ m ++ post ∧ matchPatternAt vis name (m ++ post) = some post ∧
        ∀ i, i < pre.length → matchPatternAt vis name (text.drop i) = none := by
  intro text
  induction text with
  | nil => intro pre m post h; simp [findMatch] at h
  | cons c cs ih =>
    intro pre m post h
    simp only [findMatch] at h
    split at h
    case _ rest hm =>
      obtain ⟨m0, hm0s⟩ := matchPatternAt_suffix hm
      have htake : (c :: cs).take ((c :: cs).length - rest.length) = m0 := by
        rw [← hm0s, List.length_append, Nat.add_sub_cancel]
        exact List.take_left m0 rest
      rw [htake] at h
      obtain ⟨h1, h2, h3⟩ : pre = [] ∧ m0 = m ∧ rest = post := by
        simpa using h
      subst h1; subst h2; subst h3
      refine ⟨by simpa using hm0s.symm, by rwa [hm0s], ?_⟩
      intro i hi
      simp at hi
    case _ hm =>
      split at h
      case _ pre2 m2 post2 hf =>
        obtain ⟨h1, h2, h3⟩ : c :: pre2 = pre ∧ m2 = m ∧ post2 = post := by
          simpa using h
        subst h2; subst h3
        obtain ⟨e1, e2, e3⟩ := ih hf
        refine ⟨by simp [← h1, e1], e2, ?_⟩
        intro i hi
        cases i with
        | zero => simpa using hm
        | succ j =>
          have hj : j < pre2.length := by
            rw [← h1] at hi
            simpa using Nat.lt_of_succ_lt_succ hi
          simpa using e3 j hj
      case _ => simp at h

lemma findMatch_ne {vis name : List Char} :
    ∀ (a : List Char) {t : List Char}, matchPatternAt vis name t ≠ none →
      findMatch vis name (a ++ t) ≠ none := by
  intro a
  induction a with
  | nil =>
    intro t ht
    cases t with
    | nil => exact absurd (matchPatternAt_nil vis name) ht
    | cons c cs =>
      simp only [List.nil_append, findMatch]
      cases hm : matchPatternAt vis name (c :: cs) with
      | some rest => simp
      | none => exact absurd hm ht
  | cons c a2 ih =>
    intro t ht
    simp only [List.cons_append, findMatch]
    cases hm : matchPatternAt vis name (c :: (a2 ++ t)) with
    | some rest => simp
    | none =>
      cases hf : findMatch vis name (a2 ++ t) with
      | some triple => simp
      | none => exact absurd hf (ih ht)

/-! ### Characterizing `replace_docblock` and `run` -/

lemma replace_ok {name nb vis text out : List Char} :
    replace_docblock name nb vis text = Except.ok out ↔
      ∃ pre m post, findMatch vis name text = some (pre, m, post) ∧
        out = pre ++ replacementText nb vis name ++ post := by
  unfold replace_docblock subn1
  cases hf : findMatch vis name text with
  | none => simp
  | some triple =>
    obtain ⟨pre, m, post⟩ := triple
    simp only [if_neg (by simp : (1 : Nat) ≠ 0)]
    constructor
    · intro h
      exact ⟨pre, m, post, rfl, by injection h with h2; exact h2.symm⟩
    · intro ⟨p2, m2, s2, he, ho⟩
      injection he with he2
      obtain ⟨a1, a2, a3⟩ : p2 = pre ∧ m2 = m ∧ s2 = post := by
        constructor
        · exact (congrArg Prod.fst he2).symm
        constructor
        · exact (congrArg (fun q => q.snd.fst) he2).symm
        · exact (congrArg (fun q => q.snd.snd) he2).symm
      subst a1; subst a3
      simp [ho]

lemma replace_err {name nb vis text : List Char} :
    replace_docblock name nb vis text = Except.error (errMsg name) ↔
      findMatch vis name text = none := by
  unfold replace_docblock subn1
  cases hf : findMatch vis name text with
  | none => simp
  | some triple =>
    obtain ⟨pre, m, post⟩ := triple
    simp

lemma run_cons (r : Request) (rs : List Request) (t : List Char) :
    run (r :: rs) t =
      Except.bind (replace_docblock r.func_name r.new_block r.visibility t) (run rs) := by
  cases h : replace_docblock r.func_name r.new_block r.visibility t with
  | ok t2 => simp [run, h, Except.bind]
  | error e => simp [run, h, Except.bind]

lemma run_append (xs ys : List Request) (t : List Char) :
    run (xs ++ ys) t = Except.bind (run xs t) (run ys) := by
  induction xs generalizing t with
  | nil => simp [run, Except.bind]
  | cons r xs ih =>
    rw [List.cons_append, run_cons, run_cons]
    cases h : replace_docblock r.func_name r.new_block r.visibility t with
    | ok t2 => simp [Except.bind, ih]
    | error e => simp [Except.bind]

/-! ### Occurrence of the declaration header in the buffer -/

/-- Whether the pattern part after the comment (the reconstructed declaration
header shape `visibility \s+ function \s+ name \s* (`) occurs anywhere in `s`. -/
def hasHeader (vis name : List Char) : List Char → Bool
  | [] => (findHeaderAt vis name []).isSome
  | c :: cs => (findHeaderAt vis name (c :: cs)).isSome || hasHeader vis name cs

lemma hasHeader_of_at {vis name : List Char} :
    ∀ (a : List Char) {u r : List Char}, findHeaderAt vis name u = some r →
      hasHeader vis name (a ++ u) = true := by
  intro a
  induction a with
  | nil =>
    intro u r h
    cases u with
    | nil => simp [hasHeader, h]
    | cons c cs => simp [hasHeader, h]
  | cons c a2 ih =>
    intro u r h
    simp only [List.cons_append, hasHeader, Bool.or_eq_true]
    exact Or.inr (ih h)

lemma replace_ok_header {name nb vis text out : List Char}
    (h : replace_docblock name nb vis text = Except.ok out) :
    hasHeader vis name text = true := by
  obtain ⟨pre, m, post, hf, _⟩ := replace_ok.mp h
  obtain ⟨e1, e2, _⟩ := findMatch_decomp hf
  obtain ⟨u, hu, hhdr⟩ := matchPatternAt_header e2
  have hmp : m ++ post <:+ text := ⟨pre, by simp [e1]⟩
  obtain ⟨a, ha⟩ := hu.trans hmp
  rw [← ha]
  exact hasHeader_of_at a hhdr

lemma replace_ok_name {name nb vis text out : List Char}
    (h : replace_docblock name nb vis text = Except.ok out) :
    ∃ x y, text = x ++ name ++ y := by
  obtain ⟨pre, m, post, hf, _⟩ := replace_ok.mp h
  obtain ⟨e1, e2, _⟩ := findMatch_decomp hf
  obtain ⟨u, hu, hhdr⟩ := matchPatternAt_header e2
  have hmp : m ++ post <:+ text := ⟨pre, by simp [e1]⟩
  obtain ⟨a, ha⟩ := hu.trans hmp
  obtain ⟨x, y, hxy⟩ := (findHeaderAt_parts hhdr).2
  exact ⟨a ++ x, y, by rw [← ha, hxy]; simp⟩

/-! ### Constructing a match on the replaced buffer -/

lemma wsPlusThen_cons_ws {k : List Char → Option (List Char)} {c : Char}
    (hc : isWS c = true) (rest : List Char) :
    wsPlusThen k (c :: rest) = wsStarThen k rest := by
  simp [wsPlusThen, hc]

lemma wsStarThen_cons_not {k : List Char → Option (List Char)} {c : Char}
    (hc : isWS c = false) (rest : List Char) :
    wsStarThen k (c :: rest) = k (c :: rest) := by
  simp [wsStarThen, hc]

lemma wsStarThen_ne2 {k : List Char → Option (List Char)} {s w t : List Char}
    (hs : s = w ++ t) (hw : ∀ c ∈ w, isWS c = true) (hk : k t ≠ none) :
    wsStarThen k s ≠ none := by
  subst hs
  exact wsStarThen_ne hw hk

lemma findHeaderAt_self (vis name post : List Char) :
    findHeaderAt vis name (vis ++ " function ".data ++ name ++ parenC ++ post) ≠ none := by
  have hfs : (" function ".data : List Char) = ' ' :: (fnKw ++ [' ']) := by decide
  have e1 : vis ++ " function ".data ++ name ++ parenC ++ post =
      vis ++ (' ' :: (fnKw ++ (' ' :: (name ++ (parenC ++ post))))) := by
    rw [hfs]
    simp [List.append_assoc]
  rw [e1]
  simp only [findHeaderAt, stripLit_self, Option.some_bind]
  rw [wsPlusThen_cons_ws (by decide)]
  refine wsStarThen_ne2 (List.nil_append _).symm (by simp) ?_
  simp only [stripLit_self, Option.some_bind]
  rw [wsPlusThen_cons_ws (by decide)]
  refine wsStarThen_ne2 (List.nil_append _).symm (by simp) ?_
  simp only [stripLit_self, Option.some_bind]
  refine wsStarThen_ne2 (List.nil_append _).symm (by simp) ?_
  rw [stripLit_self]
  simp

lemma matchTail_self (vis name post : List Char) :
    matchTail vis name
      ("\n    ".data ++ vis ++ " function ".data ++ name ++ parenC ++ post) ≠ none := by
  have hnl : ("\n    ".data : List Char) = '\n' :: "    ".data := by decide
  have e1 : "\n    ".data ++ vis ++ " function ".data ++ name ++ parenC ++ post =
      '\n' :: ("    ".data ++ (vis ++ " function ".data ++ name ++ parenC ++ post)) := by
    rw [hnl]
    simp [List.append_assoc]
  rw [e1]
  simp only [matchTail]
  rw [wsPlusThen_cons_ws (by decide)]
  exact wsStarThen_ne2 rfl (by decide) (findHeaderAt_self vis name post)

/-- Core preservation property: a successful replacement whose `new_block` is
itself a comment block ending in a closing delimiter leaves a buffer on which
the same pattern matches again. -/
lemma replace_preserves {name nb vis text out u v : List Char}
    (hnb : nb = u ++ openC ++ v ++ closeC)
    (h : replace_docblock name nb vis text = Except.ok out) :
    ∃ out2, replace_docblock name nb vis out = Except.ok out2 := by
  obtain ⟨pre, m, post, hf, ho⟩ := replace_ok.mp h
  have hout : out = (pre ++ u) ++
      (openC ++ (v ++ (closeC ++
        ("\n    ".data ++ vis ++ " function ".data ++ name ++ parenC ++ post)))) := by
    rw [ho, hnb]
    simp [replacementText, List.append_assoc]
  have hmp : matchPatternAt vis name
      (openC ++ (v ++ (closeC ++
        ("\n    ".data ++ vis ++ " function ".data ++ name ++ parenC ++ post)))) ≠ none := by
    simp only [matchPatternAt, stripLit_self, Option.some_bind]
    refine lazyThen_ne v ?_
    simp only [closeThenTail, stripLit_self, Option.some_bind]
    exact matchTail_self vis name post
  have hfm : findMatch vis name out ≠ none := by
    rw [hout]
    exact findMatch_ne (pre ++ u) hmp
  cases hg : findMatch vis name out with
  | none => exact absurd hg hfm
  | some triple =>
    obtain ⟨p2, m2, s2⟩ := triple
    exact ⟨p2 ++ replacementText nb vis name ++ s2, replace_ok.mpr ⟨p2, m2, s2, hg, rfl⟩⟩

/-- Decidable equality of run results, used to evaluate the model on concrete
buffers. -/
instance {ε α : Type} [DecidableEq ε] [DecidableEq α] : DecidableEq (Except ε α) :=
  fun a b =>
    match a, b with
    | Except.error e1, Except.error e2 =>
      if h : e1 = e2 then isTrue (by rw [h])
      else isFalse (by intro hc; injection hc; contradiction)
    | Except.error _, Except.ok _ => isFalse (by intro hc; exact Except.noConfusion hc)
    | Except.ok _, Except.error _ => isFalse (by intro hc; exact Except.noConfusion hc)
    | Except.ok a1, Except.ok a2 =>
      if h : a1 = a2 then isTrue (by rw [h])
      else isFalse (by intro hc; injection hc; contradiction)

/-- A single-request run is exactly one `replace_docblock` call. -/
lemma run_single (r : Request) (t : List Char) :
    run [r] t = replace_docblock r.func_name r.new_block r.visibility t := by
  cases h : replace_docblock r.func_name r.new_block r.visibility t with
  | ok t2 => simp [run, h]
  | error e => simp [run, h]

/-! ### Concrete buffers used to instantiate the theorems -/

/-- The visibility keyword used by the first four requests. -/
def exPub : List Char := "public".data

/-- The other visibility keyword. -/
def exPrv : List Char := "private".data

/-- A one-letter function name for small examples. -/
def exF : List Char := "f".data

/-- A small well-formed replacement comment block. -/
def exNb : List Char := "/** n */".data

/-- A buffer holding one docblock and declaration of `send`. -/
def exText1 : List Char := "/** old */\npublic function send(".data

/-- The name of the function declared in `exText1`. -/
def exSend : List Char := "send".data

/-- A buffer whose first closing delimiter is not followed by the header:
the match must extend across the intervening close. -/
def exText2 : List Char := "/** a */ x /** b */ public function f(".data

/-- A tiny buffer with no match for any request. -/
def exText3 : List Char := "x".data

/-- A buffer with two candidate matches for the same name and visibility. -/
def exText5 : List Char :=
  "x /** a */ public function f( y /** b */ public function f( z".data

/-- The text before the first match of `exText5`. -/
def exPre5 : List Char := "x ".data

/-- The first matched span of `exText5`. -/
def exM5 : List Char := "/** a */ public function f(".data

/-- The text after the first match of `exText5`, holding the second candidate. -/
def exPost5 : List Char := " y /** b */ public function f( z".data

/-- A buffer declaring `f` with the `public` keyword only. -/
def exText7 : List Char := "/** d */\npublic function f(".data

/-- A function name containing a regex metacharacter. -/
def exFo : List Char := "f.o".data

/-- A buffer declaring the metacharacter name literally. -/
def exText8 : List Char := "/** d */\npublic function f.o(".data

/-- The result of replacing the docblock of `f.o` in `exText8`. -/
def exOut8 : List Char := "/** n */\n    public function f.o(".data

/-- The result of replacing the docblock of `send` in `exText1` with `exNb`. -/
def exOut1 : List Char := "/** n */\n    public function send(".data

/-- A replacement block used for the repeated-run examples. -/
def exNb4 : List Char := "/** New doc. */".data

/-- A buffer with one docblock and declaration of `f`, with surrounding text. -/
def exText4 : List Char := "x /** old */\npublic function f( y".data

/-- The output of the single-request run on `exText4`; the run maps it to
itself again. -/
def exOut4 : List Char := "x /** New doc. */\n    public function f( y".data

/-- A fixture holding two copies of all six expected docblock/declaration
pairs in request order. -/
def fix4 : List Char :=
  ("<?php\n/** a */\n    public function __construct(\n/** b */\n    public function send(\n/** c */\n    public function through(\n/** d */\n    public function thenReturn(\n/** e */\n    private function carry(\n/** f */\n    private function getPipeInstance(\n/** a2 */\n    public function __construct(\n/** b2 */\n    public function send(\n/** c2 */\n    public function through(\n/** d2 */\n    public function thenReturn(\n/** e2 */\n    private function carry(\n/** f2 */\n    private function getPipeInstance(\n\x7d").data

/-- The buffer produced by the first successful run on `fix4`. -/
def out41 : List Char :=
  ("<?php\n                        /**\n     * Resolve a pipe class name to its instance.\n     *\n     * @see docs/classes/Resolve/ResolutionPipeline.html#getPipeInstance\n     */\n    private function getPipeInstance(\n/** a2 */\n    public function __construct(\n/** b2 */\n    public function send(\n/** c2 */\n    public function through(\n/** d2 */\n    public function thenReturn(\n/** e2 */\n    private function carry(\n/** f2 */\n    private function getPipeInstance(\n\x7d").data

/-- The buffer produced by the second successful run, on `out41`. -/
def out42 : List Char :=
  ("<?php\n                                                /**\n     * Resolve a pipe class name to its instance.\n     *\n     * @see docs/classes/Resolve/ResolutionPipeline.html#getPipeInstance\n     */\n    private function getPipeInstance(\n\x7d").data

/-! ### The claims -/

/-- Claim C1: for every buffer in which the pattern for the pair of function
name and visibility matches, `replace_docblock` returns the buffer with the
matched span replaced by `new_block` followed by a newline, four spaces of
indentation, and the reconstructed declaration header, with the text before
the match and the text after it unchanged. -/
theorem claim1_replace_result (nb vis name text pre m post : List Char)
    (h : findMatch vis name text = some (pre, m, post)) :
    replace_docblock name nb vis text =
      Except.ok (pre ++
        (nb ++ "\n    ".data ++ vis ++ " function ".data ++ name ++ "(".data) ++ post) ∧
    text = pre ++ m ++ post := by
  obtain ⟨e1, _, _⟩ := findMatch_decomp h
  refine ⟨replace_ok.mpr ⟨pre, m, post, h, ?_⟩, e1⟩
  simp [replacementText, parenC]

/-- Witness for C1 at a concrete buffer holding a docblock before `send`. -/
theorem claim1_witness :
    replace_docblock exSend exNb exPub exText1 =
      Except.ok (([] : List Char) ++
        (exNb ++ "\n    ".data ++ exPub ++ " function ".data ++ exSend ++ "(".data) ++ []) ∧
    exText1 = [] ++ exText1 ++ [] :=
  claim1_replace_result exNb exPub exSend exText1 [] exText1 [] (by decide)

/-- First index at which the literal `p` occurs in a buffer. -/
def findSub (p : List Char) : List Char → Option Nat
  | [] =>
    match stripLit p [] with
    | some _ => some 0
    | none => none
  | c :: cs =>
    match stripLit p (c :: cs) with
    | some _ => some 0
    | none =>
      match findSub p cs with
      | some n => some (n + 1)
      | none => none

/-- Formalization of claim C2 as stated: in every matched span, the comment
part stops at the first closing delimiter after the opening `/**`, i.e. the
remainder of the span after that first `*/` is exactly the whitespace plus
declaration-header tail of the pattern. -/
def commentStops (vis name text : List Char) : Prop :=
  ∀ pre m post, findMatch vis name text = some (pre, m, post) →
    ∀ j, findSub closeC (m.drop 3) = some j →
      matchTail vis name (m.drop (3 + j + 2)) = some []

/-- Counterexample to C2: in `exText2` the first closing delimiter is followed
by text that is not the declaration header, and the lazy quantifier extends
the match across it, so the matched comment part does not stop at the first
closing delimiter. -/
theorem claim2_counterexample : ¬ commentStops exPub exF exText2 := by
  intro h
  have h2 := h [] exText2 [] (by decide) 3 (by decide)
  exact absurd h2 (by decide)

/-- Claim C2 (amended): the matched span ends at the first closing delimiter
from which the remainder of the pattern (whitespace, visibility, `function`,
name, parenthesis) matches; a nearest closing delimiter whose continuation
fails is skipped, and the match extends across it to a later one. -/
theorem claim2_nearest_viable_close (vis name text pre m post : List Char)
    (h : findMatch vis name text = some (pre, m, post)) :
    matchPatternAt vis name (m ++ post) = some post ∧
    ∃ n, closeThenTail vis name (((m ++ post).drop 3).drop n) = some post ∧
      ∀ i, i < n → closeThenTail vis name (((m ++ post).drop 3).drop i) = none := by
  obtain ⟨_, e2, _⟩ := findMatch_decomp h
  refine ⟨e2, ?_⟩
  have e3 := e2
  simp only [matchPatternAt, Option.bind_eq_some] at e3
  obtain ⟨u1, h1, h2⟩ := e3
  have eu : u1 = (m ++ post).drop 3 := by
    rw [stripLit_eq h1]
    simp [openC]
  obtain ⟨n, _, h3, h4⟩ := lazyThen_some h2
  rw [← eu]
  exact ⟨n, h3, h4⟩

/-- Witness for the amended C2 at the buffer `exText2`, where the viable
closing delimiter is the second one. -/
theorem claim2_witness :
    matchPatternAt exPub exF (exText2 ++ []) = some [] ∧
    ∃ n, closeThenTail exPub exF (((exText2 ++ []).drop 3).drop n) = some [] ∧
      ∀ i, i < n → closeThenTail exPub exF (((exText2 ++ []).drop 3).drop i) = none :=
  claim2_nearest_viable_close exPub exF exText2 [] exText2 [] (by decide)

/-- Claim C5: when a buffer contains a match (in particular when it contains
two candidate matches for the same name and visibility pair), only the first,
topmost occurrence is affected: the substitution rewrites exactly the matched
span, every character outside it is byte-identical between input and output,
and no earlier start position admits a match. -/
theorem claim5_first_match_only (nb vis name text pre m post : List Char)
    (h : findMatch vis name text = some (pre, m, post)) :
    text = pre ++ m ++ post ∧
    replace_docblock name nb vis text =
      Except.ok (pre ++ replacementText nb vis name ++ post) ∧
    ∀ i, i < pre.length → matchPatternAt vis name (text.drop i) = none := by
  obtain ⟨e1, _, e3⟩ := findMatch_decomp h
  exact ⟨e1, replace_ok.mpr ⟨pre, m, post, h, rfl⟩, e3⟩

/-- Witness for C5 at a buffer with two candidate matches for `f`: the prefix
and the suffix holding the second candidate are unchanged. -/
theorem claim5_witness :
    exText5 = exPre5 ++ exM5 ++ exPost5 ∧
    replace_docblock exF exNb exPub exText5 =
      Except.ok (exPre5 ++ replacementText exNb exPub exF ++ exPost5) ∧
    ∀ i, i < exPre5.length → matchPatternAt exPub exF (exText5.drop i) = none :=
  claim5_first_match_only exNb exPub exF exText5 exPre5 exM5 exPost5 (by decide)

/-- Claim C3: when some request of the script has zero matches in the buffer
it receives (all earlier requests having succeeded), the run aborts at that
request with the error naming that function, no further requests are
attempted (the result does not depend on the requests after the failing one),
the process exits with a non-zero status, and the output file is not
written. -/
theorem claim3_abort_on_missing (text t : List Char) (pre post : List Request)
    (r : Request)
    (hsplit : requests = pre ++ r :: post)
    (hpre : run pre text = Except.ok t)
    (hfail : findMatch r.visibility r.func_name t = none) :
    run requests text = Except.error (errMsg r.func_name) ∧
    (∀ post2, run (pre ++ r :: post2) text = Except.error (errMsg r.func_name)) ∧
    runScript text = ⟨1, none⟩ := by
  have key : ∀ post2, run (pre ++ r :: post2) text = Except.error (errMsg r.func_name) := by
    intro post2
    rw [run_append, hpre]
    simp only [Except.bind]
    rw [run_cons, replace_err.mpr hfail]
    simp [Except.bind]
  have h1 : run requests text = Except.error (errMsg r.func_name) := by
    rw [hsplit]
    exact key post
  exact ⟨h1, key, by simp [runScript, h1]⟩

/-- Witness for C3: on the buffer `exText3` the very first request has no
match, so the whole run fails with the `__construct` message, independently of
the later requests, and nothing is written. -/
theorem claim3_witness :
    run requests exText3 = Except.error (errMsg reqConstruct.func_name) ∧
    (∀ post2, run ([] ++ reqConstruct :: post2) exText3 =
      Except.error (errMsg reqConstruct.func_name)) ∧
    runScript exText3 = ⟨1, none⟩ :=
  claim3_abort_on_missing exText3 exText3 []
    [reqSend, reqThrough, reqThenReturn, reqCarry, reqGetPipeInstance]
    reqConstruct rfl rfl (by decide)

set_option maxRecDepth 200000 in
/-- Counterexample to C4: a successful run on the fixture `fix4` produces
`out41`, and a second consecutive run on `out41` succeeds again (producing
`out42`) instead of failing with the not-found error, because the inserted
blocks are themselves docblocks and the second copy of the declarations
supplies headers for them to attach to. -/
theorem claim4_counterexample :
    ¬ ∀ (text out : List Char), run requests text = Except.ok out →
        ∃ e, run requests out = Except.error e := by
  intro hcl
  obtain ⟨e, he⟩ := hcl fix4 out41 (by decide)
  have h2 : run requests out41 = Except.ok out42 := by decide
  rw [h2] at he
  exact absurd he (by simp)

/-- Claim C4 (amended): a second consecutive run applied to the output of a
successful run is not guaranteed to fail with the not-found error: whenever a
new_block field of a request is itself a comment block ending in a closing
delimiter, the replaced span matches the pattern again, so the single-request
run applied to its own output succeeds. -/
theorem claim4_second_run (fn nb vis text out u v : List Char)
    (hnb : nb = u ++ openC ++ v ++ closeC)
    (h : run [⟨fn, nb, vis⟩] text = Except.ok out) :
    ∃ out2, run [⟨fn, nb, vis⟩] out = Except.ok out2 := by
  have h1 : replace_docblock fn nb vis text = Except.ok out := by
    have hs := run_single ⟨fn, nb, vis⟩ text
    rw [hs] at h
    exact h
  obtain ⟨out2, h2⟩ := replace_preserves hnb h1
  refine ⟨out2, ?_⟩
  rw [run_single]
  exact h2

/-- Witness for the amended C4: the single-request run on `exText4` produces
`exOut4`, and the same run applied to `exOut4` succeeds again. -/
theorem claim4_witness :
    ∃ out2, run [⟨exF, exNb4, exPub⟩] exOut4 = Except.ok out2 :=
  claim4_second_run exF exNb4 exPub exText4 exOut4 [] (" New doc. ".data)
    (by decide) (by decide)

/-- Claim C6: `run` on the request list of the script applies one replacement per
request, in the fixed order `__construct`, `send`, `through`, `thenReturn`,
`carry`, `getPipeInstance`, the first four with the `public` keyword and the
last two with the `private` keyword, threading the buffer so that the buffer
produced by one request is the input of the next, and on success the final
buffer is the result of the six replacements applied once each. -/
theorem claim6_run_order :
    (∀ text, run requests text =
      Except.bind (replace_docblock ("__construct".data) reqConstruct.new_block ("public".data) text) (fun t1 =>
      Except.bind (replace_docblock ("send".data) reqSend.new_block ("public".data) t1) (fun t2 =>
      Except.bind (replace_docblock ("through".data) reqThrough.new_block ("public".data) t2) (fun t3 =>
      Except.bind (replace_docblock ("thenReturn".data) reqThenReturn.new_block ("public".data) t3) (fun t4 =>
      Except.bind (replace_docblock ("carry".data) reqCarry.new_block ("private".data) t4) (fun t5 =>
      replace_docblock ("getPipeInstance".data) reqGetPipeInstance.new_block ("private".data) t5)))))) ∧
    requests = [reqConstruct, reqSend, reqThrough, reqThenReturn, reqCarry, reqGetPipeInstance] := by
  constructor
  · intro text
    show run [reqConstruct, reqSend, reqThrough, reqThenReturn, reqCarry, reqGetPipeInstance] text = _
    rw [run_cons]
    congr 1
    funext t1
    rw [run_cons]
    congr 1
    funext t2
    rw [run_cons]
    congr 1
    funext t3
    rw [run_cons]
    congr 1
    funext t4
    rw [run_cons]
    congr 1
    funext t5
    rw [run_single]
    rfl
  · rfl

/-- Claim C7: when the buffer contains no occurrence of the requested
declaration-header shape (the requested visibility keyword, whitespace,
`function`, whitespace, the name, optional whitespace, parenthesis) —
in particular when the function is declared with the other visibility
keyword — the replacement fails with the not-found error instead of matching
a declaration of the wrong visibility. -/
theorem claim7_visibility_mismatch (nb vis name text : List Char)
    (h : hasHeader vis name text = false) :
    replace_docblock name nb vis text = Except.error (errMsg name) := by
  cases hg : findMatch vis name text with
  | none => exact replace_err.mpr hg
  | some triple =>
    obtain ⟨p, m, s⟩ := triple
    have hok : replace_docblock name nb vis text =
        Except.ok (p ++ replacementText nb vis name ++ s) :=
      replace_ok.mpr ⟨p, m, s, hg, rfl⟩
    exact absurd (replace_ok_header hok) (by simp [h])

/-- Witness for C7: `exText7` declares `f` with the `public` keyword, so the
`private` request for `f` fails with the not-found error. -/
theorem claim7_witness :
    replace_docblock exF exNb exPrv exText7 = Except.error (errMsg exF) :=
  claim7_visibility_mismatch exNb exPrv exF exText7 (by decide)

/-- Claim C8: the function name and the visibility are matched as literal
text (the effect of escaping them before building the pattern): whenever the
replacement succeeds, the buffer contains the name and the visibility as
literal substrings, so a name such as `f.o` can never match a buffer that
only contains `fxo`. -/
theorem claim8_literal_name (nb vis name text out : List Char)
    (h : replace_docblock name nb vis text = Except.ok out) :
    (∃ x y, text = x ++ name ++ y) ∧ ∃ a b, text = a ++ vis ++ b := by
  refine ⟨replace_ok_name h, ?_⟩
  obtain ⟨pre, m, post, hf, _⟩ := replace_ok.mp h
  obtain ⟨e1, e2, _⟩ := findMatch_decomp hf
  obtain ⟨u, hu, hhdr⟩ := matchPatternAt_header e2
  have hmp : m ++ post <:+ text := ⟨pre, by simp [e1]⟩
  obtain ⟨a, ha⟩ := hu.trans hmp
  simp only [findHeaderAt, Option.bind_eq_some] at hhdr
  obtain ⟨u2, h1, _⟩ := hhdr
  refine ⟨a, u2, ?_⟩
  rw [← ha, stripLit_eq h1]
  exact (List.append_assoc a vis u2).symm

/-- Witness for C8: the metacharacter name `f.o` occurs literally in
`exText8`, where the replacement succeeds. -/
theorem claim8_witness :
    (∃ x y, exText8 = x ++ exFo ++ y) ∧ ∃ a b, exText8 = a ++ exPub ++ b :=
  claim8_literal_name exNb exPub exFo exText8 exOut8 (by decide)

/-- Claim C9: the substitution is atomic on failure — a zero-count
substitution returns the buffer unchanged, so at the moment the run aborts
the in-memory buffer is byte-identical to the buffer before the failing
call, which raises the not-found error. -/
theorem claim9_failure_atomic (nb vis name text : List Char)
    (h : (subn1 name nb vis text).2 = 0) :
    (subn1 name nb vis text).1 = text ∧
    replace_docblock name nb vis text = Except.error (errMsg name) := by
  cases hg : findMatch vis name text with
  | some triple =>
    obtain ⟨p, m, s⟩ := triple
    simp [subn1, hg] at h
  | none =>
    exact ⟨by simp [subn1, hg], replace_err.mpr hg⟩

/-- Witness for C9: the failing `private` request on `exText7` leaves the
buffer unchanged. -/
theorem claim9_witness :
    (subn1 exF exNb exPrv exText7).1 = exText7 ∧
    replace_docblock exF exNb exPrv exText7 = Except.error (errMsg exF) :=
  claim9_failure_atomic exNb exPrv exF exText7 (by decide)

/-- Claim C10: every successful replacement whose `new_block` is itself a
comment block ending in a closing delimiter preserves matchability — the
output buffer again contains a match for the same pattern, because the
inserted text is that comment block followed by whitespace and the
reconstructed declaration header, so applying the same replacement to the
output succeeds. -/
theorem claim10_matchability_preserved (name nb vis text out u v : List Char)
    (hnb : nb = u ++ openC ++ v ++ closeC)
    (h : replace_docblock name nb vis text = Except.ok out) :
    ∃ out2, replace_docblock name nb vis out = Except.ok out2 :=
  replace_preserves hnb h

/-- Witness for C10: after replacing the docblock of `send` in `exText1`,
the same replacement succeeds again on the output `exOut1`. -/
theorem claim10_witness :
    ∃ out2, replace_docblock exSend exNb exPub exOut1 = Except.ok out2 :=
  claim10_matchability_preserved exSend exNb exPub exText1 exOut1 [] (" n ".data)
    (by decide) (by decide)

end DocblockRewriter
